import Mathlib

/-!
Shallow embedding of `src/core/data_structures.py` (repository
CVE_FinderForExe): the vulnerability tree, version parsing, range
parsing and version comparison, together with proofs about the
behaviour of `VulnerabilityTree.find_vulnerabilities`,
`add_vulnerability` and `get_statistics`.

Python strings are modelled as Lean `String` (lists of unicode
characters); Python dicts (which preserve insertion order and have
unique keys) are modelled as association lists where a get-or-create
appends at the end; Python floats (the cvss fields, opaque to every
operation studied here and only ever compared for equality by the
derived dataclass `__eq__`) are modelled as `Option ℚ`; the untyped
`additional_info : Dict[str, Any]` bag is modelled as an association
list of strings (its contents are opaque to every operation studied
here, only record equality looks at it).
-/

namespace CVEFinder

/-- Embedding of `class SeverityLevel(Enum)` from data_structures.py. -/
inductive SeverityLevel where
  | critical
  | high
  | medium
  | low
  | unknown
deriving DecidableEq, Repr

/-- Embedding of `@dataclass class Vulnerability` (all fields; the derived dataclass
`__eq__` compares every field, which the embedding mirrors with
structural equality). -/
structure Vulnerability where
  bdu_id : String
  cve_id : Option String := none
  name : String := ""
  description : String := ""
  severity : SeverityLevel := .unknown
  cvss_2_0 : Option ℚ := none
  cvss_3_0 : Option ℚ := none
  cvss_4_0 : Option ℚ := none
  vulnerability_class : String := ""
  cwe_id : Option String := none
  cwe_description : String := ""
  published_date : Option String := none
  exploit_available : Bool := false
  additional_info : List (String × String) := []
deriving DecidableEq, Repr

/-- Embedding of `@dataclass class SoftwareVersion`. -/
structure SoftwareVersion where
  version : String
  vulnerabilities : List Vulnerability := []
deriving DecidableEq, Repr

/-- Embedding of `@dataclass class Software`.  Its `versions : Dict[str, SoftwareVersion]`
is modelled as an insertion-ordered association list. -/
structure Software where
  name : String
  vendor : String := ""
  versions : List (String × SoftwareVersion) := []
  software_type : String := ""
deriving DecidableEq, Repr

/-- Embedding of `class VulnerabilityTree`, whose only state is
`self.root : Dict[str, Software]`. -/
structure VulnerabilityTree where
  root : List (String × Software) := []
deriving DecidableEq, Repr

/-- Python `dict.get k`: the (unique) entry for a key, `none` if absent. -/
def dictGet {α : Type} (k : String) : List (String × α) → Option α
  | [] => none
  | (k', v) :: rest => if k' = k then some v else dictGet k rest

/-- Mutating the object stored under a key in a Python dict: replace the
first (in a dict: the only) entry whose key matches. -/
def updateFirst {α : Type} (k : String) (f : α → α) : List (String × α) → List (String × α)
  | [] => []
  | (k', v) :: rest => if k' = k then (k', f v) :: rest else (k', v) :: updateFirst k f rest

/-- Concatenation of `f` over a list, in order (a Python loop doing
`result.extend(f(x))`). -/
def flatMapL {α β : Type} (f : α → List β) : List α → List β
  | [] => []
  | x :: xs => f x ++ flatMapL f xs

/-! ### Version parsing: `VulnerabilityTree._parse_version` -/

/-- One step of `re.findall(r'\d+', s)` followed by `int(...)` on each
run: walk the characters keeping the value of the current digit run
(`acc`), emitting the run's value when it ends.  (`int` on a nonempty
digit run never raises, so the `except ValueError` branch of
`_parse_version` is dead.) -/
def digitRunsGo : List Char → Option Nat → List Nat
  | [], none => []
  | [], some n => [n]
  | c :: rest, acc =>
    if c.isDigit then
      digitRunsGo rest (some (10 * (acc.getD 0) + (c.toNat - 48)))
    else
      match acc with
      | none => digitRunsGo rest none
      | some n => n :: digitRunsGo rest none

/-- The values of the maximal decimal-digit runs of a string, in order
of appearance (`[int(n) for n in re.findall(r'\d+', s)]`).  Python's
`\d` also matches non-ASCII decimal digits; the knowledge base uses
Arabic numerals, modelled by `Char.isDigit`. -/
def digitRuns (l : List Char) : List Nat := digitRunsGo l none

/-- Embedding of `VulnerabilityTree._parse_version`: extract all digit runs; `None`
when there are none. -/
def parseVersionCore (l : List Char) : Option (List Nat) :=
  let numbers := digitRuns l
  if numbers.isEmpty then none else some numbers

/-- The function `_parse_version` on a Python string. -/
def parseVersion (s : String) : Option (List Nat) := parseVersionCore s.data

/-! ### Version comparison: `VulnerabilityTree._compare_versions` -/

/-- The `for v1, v2 in zip(version1, version2)` loop of
`_compare_versions`: the first element-wise decision, if any. -/
def compareZipLoop : List (Nat × Nat) → Option Int
  | [] => none
  | (v1, v2) :: rest =>
    if v1 < v2 then some (-1)
    else if v1 > v2 then some 1
    else compareZipLoop rest

/-- Embedding of `VulnerabilityTree._compare_versions`: compare element-wise over the
truncating `zip`, then break ties by length (a strict prefix is
smaller). -/
def compareVersions (version1 version2 : List Nat) : Int :=
  match compareZipLoop (version1.zip version2) with
  | some r => r
  | none =>
    if version1.length < version2.length then -1
    else if version1.length > version2.length then 1
    else 0

/-! ### Lower-casing and the regular expressions of
`VulnerabilityTree._parse_version_range` -/

/-- Model of `str.lower` restricted to the alphabets that can occur around the
patterns `от`/`до`: ASCII letters and the Russian alphabet. -/
def toLowerChar (c : Char) : Char :=
  if 'A' ≤ c ∧ c ≤ 'Z' then Char.ofNat (c.toNat + 32)
  else if 'А' ≤ c ∧ c ≤ 'Я' then Char.ofNat (c.toNat + 32)
  else if c = 'Ё' then 'ё'
  else c

/-- Model of `str.lower` on the character list of a string. -/
def lowerStr (l : List Char) : List Char := l.map toLowerChar

/-- The regex character class `[\d.]`. -/
def isVerChar (c : Char) : Bool := c.isDigit || c = '.'

/-- The regex character class `\s` (the whitespace that occurs in the
version labels). -/
def isSpaceChar (c : Char) : Bool := c = ' ' || c = '\t' || c = '\n' || c = '\r'

/-- Attempt the pattern `от\s+([\d.]+)\s+до\s+([\d.]+)` at the head of
the input, returning the two captured groups.  All quantified pieces
range over pairwise disjoint character sets and are followed by a
character outside their set, so Python's greedy backtracking matcher
accepts exactly when taking every run maximally succeeds, which is what
this function does. -/
def matchOtDoAt (l : List Char) : Option (List Char × List Char) :=
  match l with
  | 'о' :: 'т' :: r0 =>
    let (sp1, r1) := r0.span isSpaceChar
    if sp1.isEmpty then none else
    let (g1, r2) := r1.span isVerChar
    if g1.isEmpty then none else
    let (sp2, r3) := r2.span isSpaceChar
    if sp2.isEmpty then none else
    match r3 with
    | 'д' :: 'о' :: r4 =>
      let (sp3, r5) := r4.span isSpaceChar
      if sp3.isEmpty then none else
      let (g2, _) := r5.span isVerChar
      if g2.isEmpty then none else some (g1, g2)
    | _ => none
  | _ => none

/-- Attempt the pattern `([\d.]+)\s*-\s*([\d.]+)` at the head of the
input. -/
def matchDashAt (l : List Char) : Option (List Char × List Char) :=
  let (g1, r1) := l.span isVerChar
  if g1.isEmpty then none else
  let (_, r2) := r1.span isSpaceChar
  match r2 with
  | '-' :: r3 =>
    let (_, r4) := r3.span isSpaceChar
    let (g2, _) := r4.span isVerChar
    if g2.isEmpty then none else some (g1, g2)
  | _ => none

/-- Attempt the pattern `от\s+([\d.]+)` at the head of the input. -/
def matchOtAt (l : List Char) : Option (List Char) :=
  match l with
  | 'о' :: 'т' :: r0 =>
    let (sp1, r1) := r0.span isSpaceChar
    if sp1.isEmpty then none else
    let (g1, _) := r1.span isVerChar
    if g1.isEmpty then none else some g1
  | _ => none

/-- Attempt the pattern `до\s+([\d.]+)` at the head of the input. -/
def matchDoAt (l : List Char) : Option (List Char) :=
  match l with
  | 'д' :: 'о' :: r0 =>
    let (sp1, r1) := r0.span isSpaceChar
    if sp1.isEmpty then none else
    let (g1, _) := r1.span isVerChar
    if g1.isEmpty then none else some g1
  | _ => none

/-- Model of `re.search`: try the pattern at every start position from the left;
the first success wins.  (The end-of-string position is also tried for
faithfulness; no pattern used here matches the empty string.) -/
def searchFirst {α : Type} (m : List Char → Option α) : List Char → Option α
  | [] => m []
  | c :: rest =>
    match m (c :: rest) with
    | some r => some r
    | none => searchFirst m rest

/-- Embedding of `VulnerabilityTree._parse_version_range`: try, in order,
`от X до Y` and `X - Y` and open-ended `от X` / `до X`; the first two
patterns capture both bounds, the open-ended ones substitute the
sentinels `"999.999.999"` / `"0.0.0"`.  Patterns 1, 3, 4 are searched
in the lower-cased string, pattern 2 in the original string, exactly as
in the source. -/
def parseVersionRangeCore (l : List Char) : Option (List Char) × Option (List Char) :=
  let low := lowerStr l
  match searchFirst matchOtDoAt low with
  | some (g1, g2) => (some g1, some g2)
  | none =>
    match searchFirst matchDashAt l with
    | some (g1, g2) => (some g1, some g2)
    | none =>
      match searchFirst matchOtAt low with
      | some g1 => (some g1, some ("999.999.999".data))
      | none =>
        match searchFirst matchDoAt low with
        | some g1 => (some ("0.0.0".data), some g1)
        | none => (none, none)

/-- The function `_parse_version_range` on a Python string. -/
def parseVersionRange (s : String) : Option (List Char) × Option (List Char) :=
  parseVersionRangeCore s.data

/-! ### Substring and prefix tests used by the scan -/

/-- Python `pat in s` (substring containment). -/
def isSubstring (pat : List Char) : List Char → Bool
  | [] => pat.isEmpty
  | c :: rest => pat.isPrefixOf (c :: rest) || isSubstring pat rest

/-! ### Tree construction: `add_software`, `add_version`,
`add_vulnerability` -/

/-- Embedding of `SoftwareVersion.add_vulnerability`: append unless an equal record
(dataclass `__eq__`: all fields) is already in the bucket. -/
def SoftwareVersion.add_vulnerability (sv : SoftwareVersion) (vuln : Vulnerability) :
    SoftwareVersion :=
  if vuln ∈ sv.vulnerabilities then sv
  else { sv with vulnerabilities := sv.vulnerabilities ++ [vuln] }

/-- Embedding of `Software.add_version`: get-or-create a version bucket (a new dict
entry goes at the end). -/
def Software.add_version (sw : Software) (version_str : String) : Software :=
  if (dictGet version_str sw.versions).isSome then sw
  else { sw with versions := sw.versions ++ [(version_str, { version := version_str })] }

/-- Embedding of `Software.get_all_vulnerabilities`: concatenate every bucket in
dict (insertion) order. -/
def Software.get_all_vulnerabilities (sw : Software) : List Vulnerability :=
  flatMapL (fun p => p.2.vulnerabilities) sw.versions

/-- Embedding of `VulnerabilityTree.add_software`: get-or-create the software entry;
an existing entry is returned untouched (vendor / software_type
arguments are ignored then). -/
def VulnerabilityTree.add_software (t : VulnerabilityTree) (name vendor software_type : String) :
    VulnerabilityTree :=
  if (dictGet name t.root).isSome then t
  else { root := t.root ++ [(name, { name := name, vendor := vendor,
                                     software_type := software_type })] }

/-- The body of `VulnerabilityTree.add_vulnerability` acting on the
`Software` object returned by `add_software`:
`version = software.add_version(version_str); version.add_vulnerability(vulnerability)`. -/
def Software.addVulnToVersion (sw : Software) (version_str : String) (vuln : Vulnerability) :
    Software :=
  let sw' := sw.add_version version_str
  { sw' with versions :=
      updateFirst version_str (fun sv => sv.add_vulnerability vuln) sw'.versions }

/-- Embedding of `VulnerabilityTree.add_vulnerability`. -/
def VulnerabilityTree.add_vulnerability (t : VulnerabilityTree)
    (software_name version_str : String) (vulnerability : Vulnerability)
    (vendor software_type : String) : VulnerabilityTree :=
  let t' := t.add_software software_name vendor software_type
  { root := updateFirst software_name (fun sw => sw.addVulnToVersion version_str vulnerability)
      t'.root }

/-! ### Lookup: `find_vulnerabilities` and the range scan -/

/-- The range heuristic of `_find_vulnerabilities_in_ranges`:
`'от' in version_str.lower() or 'до' in version_str.lower() or '-' in version_str`. -/
def looksLikeRange (version_str : String) : Bool :=
  isSubstring "от".data (lowerStr version_str.data) ||
  isSubstring "до".data (lowerStr version_str.data) ||
  isSubstring "-".data version_str.data

/-- The body of step 5a once a label passed the range heuristic:
extract the two bounds (`_parse_version_range`), require both to be
present (`if start_version and end_version`) and to parse to keys
(`if start_parts and end_parts`), then test
`start <= target and target <= end` with `_compare_versions`. -/
def rangeTestInner (target_parts : List Nat) (version_str : String) : Bool :=
  match parseVersionRange version_str with
  | (some start_version, some end_version) =>
    match parseVersionCore start_version, parseVersionCore end_version with
    | some start_parts, some end_parts =>
      decide (compareVersions start_parts target_parts ≤ 0) &&
      decide (compareVersions target_parts end_parts ≤ 0)
    | _, _ => false
  | _ => false

/-- One iteration of the `for version_str, soft_version in
software.versions.items()` loop of `_find_vulnerabilities_in_ranges`:
the vulnerabilities this label contributes for query key `target_parts`
and query text `target_version`.  A label whose parsed range contains
the query contributes its bucket and `continue`s; every other label
falls through to the substring / prefix test. -/
def labelContribution (target_parts : List Nat) (target_version : String)
    (p : String × SoftwareVersion) : List Vulnerability :=
  let version_str := p.1
  let rangeHit : Bool :=
    if looksLikeRange version_str then rangeTestInner target_parts version_str
    else false
  if rangeHit then p.2.vulnerabilities
  else if isSubstring target_version.data version_str.data ||
          target_version.data.isPrefixOf version_str.data then
    p.2.vulnerabilities
  else []

/-- Embedding of `VulnerabilityTree._find_vulnerabilities_in_ranges`.  The function
is total (no embedded operation can raise), so the source's
`try ... except Exception: pass` around the loop never fires and the
scan is the concatenation of the per-label contributions. -/
def findInRanges (software : Software) (target_version : String) : List Vulnerability :=
  match parseVersion target_version with
  | none => []
  | some target_parts =>
    flatMapL (labelContribution target_parts target_version) software.versions

/-- Embedding of `VulnerabilityTree.find_vulnerabilities`: unknown software → `[]`;
no version → all buckets; otherwise exact label match first, then the
range scan. -/
def VulnerabilityTree.find_vulnerabilities (t : VulnerabilityTree)
    (software_name : String) (version : Option String) : List Vulnerability :=
  match dictGet software_name t.root with
  | none => []
  | some software =>
    match version with
    | none => software.get_all_vulnerabilities
    | some v =>
      match dictGet v software.versions with
      | some soft_version => soft_version.vulnerabilities
      | none => findInRanges software v

/-! ### Statistics: `get_statistics` -/

/-- The severity-tally loop of `get_statistics` (critical, high,
medium, low, unknown).  Every `Vulnerability` has a `severity` field,
so the `hasattr` guard of the source is always true; the `else` branch
of the `if`/`elif` chain counts as unknown. -/
def severityCounts : List Vulnerability → Nat × Nat × Nat × Nat × Nat
  | [] => (0, 0, 0, 0, 0)
  | v :: rest =>
    let (c, h, m, lo, u) := severityCounts rest
    match v.severity with
    | .critical => (c + 1, h, m, lo, u)
    | .high => (c, h + 1, m, lo, u)
    | .medium => (c, h, m + 1, lo, u)
    | .low => (c, h, m, lo + 1, u)
    | .unknown => (c, h, m, lo, u + 1)

/-- The dict returned by `VulnerabilityTree.get_statistics`. -/
structure Statistics where
  total_software : Nat
  total_versions : Nat
  total_vulnerabilities : Nat
  critical_vulnerabilities : Nat
  high_vulnerabilities : Nat
  medium_vulnerabilities : Nat
  low_vulnerabilities : Nat
  unknown_vulnerabilities : Nat
deriving DecidableEq, Repr

/-- Embedding of `VulnerabilityTree.get_statistics`. -/
def VulnerabilityTree.get_statistics (t : VulnerabilityTree) : Statistics :=
  let allVulns := flatMapL (fun p => p.2.get_all_vulnerabilities) t.root
  let (c, h, m, lo, u) := severityCounts allVulns
  { total_software := t.root.length
    total_versions := (t.root.map (fun p => p.2.versions.length)).sum
    total_vulnerabilities := (t.root.map (fun p => p.2.get_all_vulnerabilities.length)).sum
    critical_vulnerabilities := c
    high_vulnerabilities := h
    medium_vulnerabilities := m
    low_vulnerabilities := lo
    unknown_vulnerabilities := u }

/-! ### Spec-side reference definitions (for refinement-style claims;
these follow the specification's words, to be compared against the
definitions above, which follow the source) -/

/-- Reference for the spec's VersionKey.compare: "lexicographic
comparison element-by-element; if one sequence is a strict prefix of
the other, the shorter one is less". -/
def lexCompareSpec : List Nat → List Nat → Int
  | [], [] => 0
  | [], _ :: _ => -1
  | _ :: _, [] => 1
  | a :: as, b :: bs =>
    if a < b then -1 else if b < a then 1 else lexCompareSpec as bs

/-- Reference for the spec's VersionKey.parse: "every maximal run of
decimal digits from the text, in order of appearance". -/
def maximalDigitRunsSpec : List Char → List (List Char)
  | [] => []
  | c :: rest =>
    if c.isDigit then
      ((c :: rest).takeWhile Char.isDigit) ::
        maximalDigitRunsSpec ((c :: rest).dropWhile Char.isDigit)
    else maximalDigitRunsSpec rest
termination_by l => l.length
decreasing_by
  · rename_i h
    simp only [List.length_cons, List.dropWhile_cons, if_pos h]
    exact Nat.lt_succ_of_le ((List.dropWhile_suffix _).sublist).length_le
  · simp only [List.length_cons]
    exact Nat.lt_succ_self _

/-- The unsigned-integer value of a digit run (Python `int`). -/
def runVal (run : List Char) : Nat :=
  run.foldl (fun n c => 10 * n + (c.toNat - 48)) 0

/-- The range test of step 5a of the scan, as a standalone predicate on
one stored label: the label textually suggests a range, both extracted
bounds parse to version keys, and `lower <= query <= upper` under
`_compare_versions`. -/
def rangeAccepts (target_parts : List Nat) (version_str : String) : Bool :=
  looksLikeRange version_str && rangeTestInner target_parts version_str

/-- When scanning ranges, a stored label's bucket is collected exactly
when its parsed range contains the query (step 5a), or — failing that —
the query text occurs inside the label or the label starts with the
query text (the substring / prefix fallback of step 5b). -/
def collectsLabel (target_parts : List Nat) (target_version : String)
    (p : String × SoftwareVersion) : Bool :=
  rangeAccepts target_parts p.1 ||
  (isSubstring target_version.data p.1.data ||
   target_version.data.isPrefixOf p.1.data)

/-! ### Auxiliary observers used to state the claims -/

/-- The vulnerability list stored under an exact (software, label)
pair; `[]` when the software or the label is absent. -/
def bucketOf (t : VulnerabilityTree) (name vstr : String) : List Vulnerability :=
  match dictGet name t.root with
  | none => []
  | some sw =>
    match dictGet vstr sw.versions with
    | none => []
    | some sv => sv.vulnerabilities

/-- Number of occurrences of a record in a list (under dataclass
equality). -/
def countV (v : Vulnerability) : List Vulnerability → Nat
  | [] => 0
  | x :: xs => (if x = v then 1 else 0) + countV v xs

/-- Repeated insertion: `n` successive calls of `add_vulnerability`
with identical arguments. -/
def insertN (name vstr : String) (v : Vulnerability) (vendor software_type : String) :
    Nat → VulnerabilityTree → VulnerabilityTree
  | 0, t => t
  | n + 1, t => insertN name vstr v vendor software_type n
      (t.add_vulnerability name vstr v vendor software_type)

/-! ### Sample records and trees used by witnesses and counterexamples -/

/-- A sample vulnerability record. -/
def vuln1 : Vulnerability := { bdu_id := "BDU:2020-00001", name := "vuln one" }

/-- Same `bdu_id` as `vuln1`, different `name` (distinct record under
dataclass equality). -/
def vuln2 : Vulnerability := { bdu_id := "BDU:2020-00001", name := "vuln two" }

/-- A second, critical sample record. -/
def vuln3 : Vulnerability := { bdu_id := "BDU:2021-03333", severity := .critical }

/-- A tree whose only stored label textually looks like a range. -/
def tExact : VulnerabilityTree :=
  VulnerabilityTree.add_vulnerability {} "Apache" "9.0.0 - 9.0.16" vuln1 "" ""

/-- A tree with one Russian-style range label. -/
def tRange : VulnerabilityTree :=
  VulnerabilityTree.add_vulnerability {} "Apache" "от 8.4.0 до 8.4.16 включительно" vuln1 "" ""

/-- A tree with two overlapping range labels, the same record stored in
both buckets. -/
def tTwoRanges : VulnerabilityTree :=
  (VulnerabilityTree.add_vulnerability {} "Apache" "от 8.0 до 9.0" vuln1 "" "")
    |>.add_vulnerability "Apache" "от 8.4.0 до 8.4.16" vuln1 "" ""

/-- A tree mixing a malformed range-looking label (`"до-1.0"`: passes
the range heuristic but no pattern of `_parse_version_range` matches
it) with a well-formed range label. -/
def tMalformed : VulnerabilityTree :=
  (VulnerabilityTree.add_vulnerability {} "PostgreSQL" "до-1.0" vuln2 "" "")
    |>.add_vulnerability "PostgreSQL" "от 8.0 до 9.0" vuln1 "" ""

/-- A tree with one software entry carrying vendor metadata. -/
def tMeta : VulnerabilityTree :=
  VulnerabilityTree.add_software {} "Apache" "Apache Software Foundation" "web-server"

/-! ## Helper lemmas -/

/-- Appending a fresh entry makes it the one `dictGet` finds. -/
theorem dictGet_append_self {α : Type} {k : String} {l : List (String × α)} (x : α)
    (h : dictGet k l = none) : dictGet k (l ++ [(k, x)]) = some x := by
  induction l with
  | nil => simp [dictGet]
  | cons p rest ih =>
    rw [dictGet] at h
    by_cases hk : p.1 = k
    · simp [hk] at h
    · simpa [dictGet, hk] using ih (by simpa [dictGet, hk] using h)

/-- Applying `updateFirst` at a key transforms exactly the value `dictGet`
sees. -/
theorem dictGet_updateFirst_self {α : Type} (k : String) (f : α → α) (l : List (String × α)) :
    dictGet k (updateFirst k f l) = (dictGet k l).map f := by
  induction l with
  | nil => simp [dictGet, updateFirst]
  | cons p rest ih =>
    by_cases hk : p.1 = k
    · cases p; simp_all [dictGet, updateFirst]
    · cases p; simp_all [dictGet, updateFirst]

/-- Applying `updateFirst` at a key absent from the prefix reaches the appended
entry. -/
theorem updateFirst_append_of_none {α : Type} {k : String} {l : List (String × α)}
    (f : α → α) (x : α) (h : dictGet k l = none) :
    updateFirst k f (l ++ [(k, x)]) = l ++ [(k, f x)] := by
  induction l with
  | nil => simp [updateFirst]
  | cons p rest ih =>
    rw [dictGet] at h
    by_cases hk : p.1 = k
    · simp [hk] at h
    · cases p
      simp only [List.cons_append, updateFirst, if_neg hk]
      exact congrArg _ (ih (by simpa [hk] using h))

/-- Applying `updateFirst` away from its key is the identity on other keys'
values. -/
theorem dictGet_updateFirst_ne {α : Type} {k k' : String} (f : α → α)
    (l : List (String × α)) (h : k' ≠ k) :
    dictGet k' (updateFirst k f l) = dictGet k' l := by
  induction l with
  | nil => simp [updateFirst]
  | cons p rest ih =>
    by_cases hk : p.1 = k
    · cases p; subst hk; simp_all [dictGet, updateFirst, Ne.symm h]
    · cases p; simp_all [dictGet, updateFirst]

/-- Membership in a `flatMapL` from membership in one piece. -/
theorem mem_flatMapL {α β : Type} {f : α → List β} {x : α} {L : List α} {v : β}
    (hx : x ∈ L) (hv : v ∈ f x) : v ∈ flatMapL f L := by
  induction L with
  | nil => cases hx
  | cons y ys ih =>
    rw [flatMapL, List.mem_append]
    rcases List.mem_cons.mp hx with h | h
    · exact Or.inl (h ▸ hv)
    · exact Or.inr (ih h)

/-- The length of a `flatMapL` is the sum of the pieces' lengths. -/
theorem length_flatMapL {α β : Type} (f : α → List β) (L : List α) :
    (flatMapL f L).length = (L.map (fun x => (f x).length)).sum := by
  induction L with
  | nil => rfl
  | cons y ys ih => simp [flatMapL, ih]

/-- The count `countV` distributes over append. -/
theorem countV_append (v : Vulnerability) (l₁ l₂ : List Vulnerability) :
    countV v (l₁ ++ l₂) = countV v l₁ + countV v l₂ := by
  induction l₁ with
  | nil => simp [countV]
  | cons x xs ih => simp [countV, ih]; omega

/-- The count `countV` vanishes exactly on lists not containing the record. -/
theorem countV_eq_zero_iff (v : Vulnerability) (l : List Vulnerability) :
    countV v l = 0 ↔ v ∉ l := by
  induction l with
  | nil => simp [countV]
  | cons x xs ih =>
    by_cases hx : x = v
    · subst hx; simp [countV]
    · simp [countV, hx, ih, Ne.symm hx]

/-- Exact-label lookup inside `find_vulnerabilities`: when the software
and the exact label both exist, the bucket is returned as stored. -/
theorem find_exact_eq (t : VulnerabilityTree) (software_name version : String)
    (sw : Software) (sv : SoftwareVersion)
    (hsw : dictGet software_name t.root = some sw)
    (hv : dictGet version sw.versions = some sv) :
    t.find_vulnerabilities software_name (some version) = sv.vulnerabilities := by
  simp [VulnerabilityTree.find_vulnerabilities, hsw, hv]

/-- When the exact label is absent, `find_vulnerabilities` is the range
scan, which is the concatenation of the per-label contributions. -/
theorem find_ranges_eq (t : VulnerabilityTree) (software_name version : String)
    (sw : Software) (target_parts : List Nat)
    (hsw : dictGet software_name t.root = some sw)
    (hv : dictGet version sw.versions = none)
    (hp : parseVersion version = some target_parts) :
    t.find_vulnerabilities software_name (some version) =
      flatMapL (labelContribution target_parts version) sw.versions := by
  simp [VulnerabilityTree.find_vulnerabilities, hsw, hv, findInRanges, hp]

/-- A label's contribution to the scan is its whole bucket when
`collectsLabel` holds and nothing otherwise. -/
theorem labelContribution_eq (target_parts : List Nat) (target_version : String)
    (p : String × SoftwareVersion) :
    labelContribution target_parts target_version p =
      if collectsLabel target_parts target_version p then p.2.vulnerabilities else [] := by
  unfold labelContribution collectsLabel rangeAccepts
  cases hr : looksLikeRange p.1 <;>
    cases hi : rangeTestInner target_parts p.1 <;>
      cases hs : (isSubstring target_version.data p.1.data ||
        target_version.data.isPrefixOf p.1.data) <;>
        simp [hr, hi, hs]

/-! ## C1: exact string match short-circuits -/

/-- C1: if the query string is exactly one of the stored version labels
for that software, `find_vulnerabilities` returns that bucket's list
verbatim — even for a label that textually looks like a range. -/
theorem find_exact_match_returns_bucket_verbatim (t : VulnerabilityTree)
    (software_name version : String) (sw : Software) (sv : SoftwareVersion)
    (hsw : dictGet software_name t.root = some sw)
    (hv : dictGet version sw.versions = some sv) :
    t.find_vulnerabilities software_name (some version) = sv.vulnerabilities :=
  find_exact_eq t software_name version sw sv hsw hv

/-- C1 witness: the stored label `"9.0.0 - 9.0.16"` textually looks
like a range, yet a byte-for-byte query returns its bucket verbatim. -/
theorem find_exact_match_returns_bucket_verbatim_witness :
    tExact.find_vulnerabilities "Apache" (some "9.0.0 - 9.0.16") = [vuln1] :=
  find_exact_match_returns_bucket_verbatim tExact "Apache" "9.0.0 - 9.0.16"
    { name := "Apache",
      versions := [("9.0.0 - 9.0.16", { version := "9.0.0 - 9.0.16",
                                        vulnerabilities := [vuln1] })] }
    { version := "9.0.0 - 9.0.16", vulnerabilities := [vuln1] }
    (by decide) (by decide)

/-! ## C6: version comparison is lexicographic with prefix-is-less -/

/-- Unfolding `_compare_versions` on two nonempty keys: decide on the heads, then
recurse. -/
theorem compareVersions_cons_cons (x y : Nat) (xs ys : List Nat) :
    compareVersions (x :: xs) (y :: ys) =
      if x < y then -1 else if y < x then 1 else compareVersions xs ys := by
  unfold compareVersions
  by_cases h1 : x < y
  · simp [compareZipLoop, h1]
  · by_cases h2 : y < x
    · simp [compareZipLoop, h1, h2]
    · simp only [List.zip_cons_cons, compareZipLoop, if_neg h1, gt_iff_lt, if_neg h2]
      rw [show List.zipWith Prod.mk xs ys = xs.zip ys from rfl]
      cases hl : compareZipLoop (xs.zip ys) <;>
        simp [hl, List.length_cons, Nat.succ_lt_succ_iff]

/-- C6: `_compare_versions` coincides with the reference lexicographic
comparison in which a strict prefix is smaller, and in particular
`(8,4) < (8,4,0)`. -/
theorem compare_versions_is_lexicographic :
    (∀ a b : List Nat, compareVersions a b = lexCompareSpec a b) ∧
    compareVersions [8, 4] [8, 4, 0] = -1 := by
  constructor
  · intro a
    induction a with
    | nil =>
      intro b
      cases b <;> simp [lexCompareSpec, compareVersions, compareZipLoop]
    | cons x xs ih =>
      intro b
      cases b with
      | nil => simp [lexCompareSpec, compareVersions, compareZipLoop]
      | cons y ys => rw [compareVersions_cons_cons, lexCompareSpec, ih]
  · decide

/-! ## C7: range patterns are tried in the documented order -/

/-- C7: `_parse_version_range` tries its patterns in the fixed order
with first match winning: "от X до Y" gives (X, Y); "X - Y" gives
(X, Y); an open-ended "от X" gives (X, "999.999.999"); "до X" gives
("0.0.0", X); a text matching no pattern, such as "12", gives none;
and when several patterns could match, the earlier one wins. -/
theorem parse_range_patterns_in_order :
    parseVersionRange "от 8.4.0 до 8.4.16 включительно" =
      (some "8.4.0".data, some "8.4.16".data) ∧
    parseVersionRange "9.0.0 - 9.0.16" = (some "9.0.0".data, some "9.0.16".data) ∧
    parseVersionRange "от 9.1" = (some "9.1".data, some "999.999.999".data) ∧
    parseVersionRange "до 3.2" = (some "0.0.0".data, some "3.2".data) ∧
    parseVersionRange "12" = (none, none) ∧
    parseVersionRange "от 1.0 до 2.0 - 3.0" = (some "1.0".data, some "2.0".data) := by
  refine ⟨?_, ?_, ?_, ?_, ?_, ?_⟩ <;> decide

/-! ## C8: version-key extraction -/

/-- The run accumulator of `digitRunsGo` against the reference
maximal-run decomposition: with no open run the output is the value of
every maximal run; with an open run of value `n` the output first
closes that run with the digits still ahead, then continues. -/
theorem digitRunsGo_spec (l : List Char) :
    digitRunsGo l none = (maximalDigitRunsSpec l).map runVal ∧
    ∀ n : Nat, digitRunsGo l (some n) =
      (l.takeWhile Char.isDigit).foldl (fun m c => 10 * m + (c.toNat - 48)) n ::
        (maximalDigitRunsSpec (l.dropWhile Char.isDigit)).map runVal := by
  induction l with
  | nil =>
    constructor
    · simp [digitRunsGo, maximalDigitRunsSpec]
    · intro n; simp [digitRunsGo, maximalDigitRunsSpec]
  | cons c rest ih =>
    constructor
    · by_cases h : c.isDigit
      · rw [show digitRunsGo (c :: rest) none =
              digitRunsGo rest (some (10 * 0 + (c.toNat - 48))) by simp [digitRunsGo, h]]
        rw [ih.2]
        simp only [maximalDigitRunsSpec]
        simp [h, runVal, List.takeWhile_cons, List.dropWhile_cons]
      · rw [show digitRunsGo (c :: rest) none = digitRunsGo rest none by
              simp [digitRunsGo, h]]
        rw [ih.1]
        simp only [maximalDigitRunsSpec]
        simp [h]
    · intro n
      by_cases h : c.isDigit
      · rw [show digitRunsGo (c :: rest) (some n) =
              digitRunsGo rest (some (10 * n + (c.toNat - 48))) by simp [digitRunsGo, h]]
        rw [ih.2]
        simp [h, List.takeWhile_cons, List.dropWhile_cons]
      · rw [show digitRunsGo (c :: rest) (some n) = n :: digitRunsGo rest none by
              simp [digitRunsGo, h]]
        rw [ih.1]
        simp [List.takeWhile_cons, List.dropWhile_cons, h]
        rw [maximalDigitRunsSpec.eq_2]
        simp [h]

/-- C8: `_parse_version` returns the values of every maximal run of
decimal digits, in order of appearance, and `None` (not an error) when
the text has no digit; in particular "8.4.0" gives (8,4,0), "v12"
gives (12) and "latest" gives no key. -/
theorem parse_version_extracts_maximal_digit_runs :
    (∀ l : List Char,
      parseVersionCore l =
        if maximalDigitRunsSpec l = [] then none
        else some ((maximalDigitRunsSpec l).map runVal)) ∧
    parseVersion "8.4.0" = some [8, 4, 0] ∧
    parseVersion "v12" = some [12] ∧
    parseVersion "latest" = none := by
  refine ⟨?_, by decide, by decide, by decide⟩
  intro l
  rw [parseVersionCore]
  simp only [digitRuns, (digitRunsGo_spec l).1]
  rcases hs : maximalDigitRunsSpec l with _ | ⟨r, rs⟩ <;> simp [hs]

/-! ## C9: severity counts sum to the total -/

/-- Each record lands in exactly one severity bucket, so the five
tallies sum to the list length. -/
theorem severityCounts_sum (l : List Vulnerability) :
    (severityCounts l).1 + (severityCounts l).2.1 + (severityCounts l).2.2.1 +
      (severityCounts l).2.2.2.1 + (severityCounts l).2.2.2.2 = l.length := by
  induction l with
  | nil => rfl
  | cons v rest ih =>
    rcases hE : severityCounts rest with ⟨c, h, m, lo, u⟩
    rw [hE] at ih
    simp only [severityCounts, hE]
    cases v.severity <;> simp_all <;> omega

/-- The `total_vulnerabilities` sum of per-software totals equals the
length of the concatenation over all software. -/
theorem total_eq_length (t : VulnerabilityTree) :
    (t.root.map (fun p => p.2.get_all_vulnerabilities.length)).sum =
      (flatMapL (fun p => p.2.get_all_vulnerabilities) t.root).length := by
  induction t.root with
  | nil => rfl
  | cons p rest ih => simp [flatMapL, ih]

/-- C9: in every index state, the five per-severity counts of
`get_statistics` sum to `total_vulnerabilities`, which counts every
instance in every version bucket. -/
theorem statistics_severity_counts_sum_to_total (t : VulnerabilityTree) :
    (t.get_statistics).critical_vulnerabilities +
    (t.get_statistics).high_vulnerabilities +
    (t.get_statistics).medium_vulnerabilities +
    (t.get_statistics).low_vulnerabilities +
    (t.get_statistics).unknown_vulnerabilities =
    (t.get_statistics).total_vulnerabilities := by
  have hsum := severityCounts_sum (flatMapL (fun p => p.2.get_all_vulnerabilities) t.root)
  rcases hE : severityCounts (flatMapL (fun p => p.2.get_all_vulnerabilities) t.root)
    with ⟨c, h, m, lo, u⟩
  rw [hE] at hsum
  simp only [VulnerabilityTree.get_statistics, hE, total_eq_length]
  simpa using hsum

/-! ## C10: get-or-create never overwrites existing metadata -/

/-- The update `addVulnToVersion` leaves the vendor field alone. -/
theorem addVulnToVersion_vendor (sw : Software) (vstr : String) (v : Vulnerability) :
    (sw.addVulnToVersion vstr v).vendor = sw.vendor := by
  simp only [Software.addVulnToVersion, Software.add_version]
  split <;> rfl

/-- The update `addVulnToVersion` leaves the software_type field alone. -/
theorem addVulnToVersion_software_type (sw : Software) (vstr : String) (v : Vulnerability) :
    (sw.addVulnToVersion vstr v).software_type = sw.software_type := by
  simp only [Software.addVulnToVersion, Software.add_version]
  split <;> rfl

/-- Calling `add_software` on an existing name is a no-op. -/
theorem add_software_existing_noop (t : VulnerabilityTree) (name vendor software_type : String)
    (sw : Software) (h : dictGet name t.root = some sw) :
    t.add_software name vendor software_type = t := by
  simp [VulnerabilityTree.add_software, h]

/-- C10: once a software name exists, inserting under that name leaves
the stored vendor and software_type unchanged, whatever vendor and
software_type arguments are passed. -/
theorem insert_never_overwrites_existing_metadata (t : VulnerabilityTree)
    (name vendor₂ software_type₂ vstr : String) (v : Vulnerability) (sw : Software)
    (h : dictGet name t.root = some sw) :
    t.add_software name vendor₂ software_type₂ = t ∧
    dictGet name (t.add_vulnerability name vstr v vendor₂ software_type₂).root =
      some (sw.addVulnToVersion vstr v) ∧
    (sw.addVulnToVersion vstr v).vendor = sw.vendor ∧
    (sw.addVulnToVersion vstr v).software_type = sw.software_type := by
  refine ⟨add_software_existing_noop t name vendor₂ software_type₂ sw h, ?_,
    addVulnToVersion_vendor sw vstr v, addVulnToVersion_software_type sw vstr v⟩
  show dictGet name
      (updateFirst name _ (t.add_software name vendor₂ software_type₂).root) = _
  rw [add_software_existing_noop t name vendor₂ software_type₂ sw h,
    dictGet_updateFirst_self, h]
  rfl

/-- C10 witness: inserting into the existing "Apache" entry with
different metadata arguments keeps the stored vendor and type. -/
theorem insert_never_overwrites_existing_metadata_witness :
    tMeta.add_software "Apache" "Evil Corp" "other" = tMeta ∧
    dictGet "Apache" (tMeta.add_vulnerability "Apache" "2.4" vuln1 "Evil Corp" "other").root =
      some (Software.addVulnToVersion
        { name := "Apache", vendor := "Apache Software Foundation",
          software_type := "web-server" } "2.4" vuln1) ∧
    (Software.addVulnToVersion
        { name := "Apache", vendor := "Apache Software Foundation",
          software_type := "web-server" } "2.4" vuln1).vendor =
      ({ name := "Apache", vendor := "Apache Software Foundation",
          software_type := "web-server" } : Software).vendor ∧
    (Software.addVulnToVersion
        { name := "Apache", vendor := "Apache Software Foundation",
          software_type := "web-server" } "2.4" vuln1).software_type =
      ({ name := "Apache", vendor := "Apache Software Foundation",
          software_type := "web-server" } : Software).software_type :=
  insert_never_overwrites_existing_metadata tMeta "Apache" "Evil Corp" "other" "2.4" vuln1
    { name := "Apache", vendor := "Apache Software Foundation",
      software_type := "web-server" } (by decide)

/-! ## C2: range matching (amended: the substring/prefix fallback can
also collect a bucket whose parsed range excludes the query) -/

/-- C2 counterexample to the claim as stated: under the stored label
"от 8.4.0 до 8.4.16 включительно" the query "4.0" parses, the label's
range parses to (8,4,0)–(8,4,16) and excludes (4,0) (lower ≰ query),
yet `find` still collects the bucket, because "4.0" occurs as a
substring of the label text. -/
theorem range_exclusion_still_collected_counterexample :
    parseVersion "4.0" = some [4, 0] ∧
    parseVersionRange "от 8.4.0 до 8.4.16 включительно" =
      (some "8.4.0".data, some "8.4.16".data) ∧
    parseVersionCore "8.4.0".data = some [8, 4, 0] ∧
    parseVersionCore "8.4.16".data = some [8, 4, 16] ∧
    ¬ compareVersions [8, 4, 0] [4, 0] ≤ 0 ∧
    tRange.find_vulnerabilities "Apache" (some "4.0") = [vuln1] := by
  refine ⟨?_, ?_, ?_, ?_, ?_, ?_⟩ <;> decide

/-- C2 amended: with no exact label match and a parseable query, `find`
returns the concatenation over the stored labels of: the label's whole
bucket when the parsed range contains the query OR when the query text
occurs in the label or the label starts with the query text; nothing
otherwise. -/
theorem find_collects_by_range_or_substring (t : VulnerabilityTree)
    (software_name version : String) (sw : Software) (target_parts : List Nat)
    (hsw : dictGet software_name t.root = some sw)
    (hv : dictGet version sw.versions = none)
    (hp : parseVersion version = some target_parts) :
    t.find_vulnerabilities software_name (some version) =
      flatMapL
        (fun p => if collectsLabel target_parts version p then p.2.vulnerabilities else [])
        sw.versions := by
  rw [find_ranges_eq t software_name version sw target_parts hsw hv hp]
  induction sw.versions with
  | nil => rfl
  | cons p rest ih => rw [flatMapL, flatMapL, labelContribution_eq, ih]

/-- C2 witness: the amended characterization evaluated on the
one-range tree at the in-range query "8.4.5". -/
theorem find_collects_by_range_or_substring_witness :
    tRange.find_vulnerabilities "Apache" (some "8.4.5") =
      flatMapL
        (fun p => if collectsLabel [8, 4, 5] "8.4.5" p then p.2.vulnerabilities else [])
        [("от 8.4.0 до 8.4.16 включительно",
          { version := "от 8.4.0 до 8.4.16 включительно", vulnerabilities := [vuln1] })] :=
  find_collects_by_range_or_substring tRange "Apache" "8.4.5"
    { name := "Apache",
      versions := [("от 8.4.0 до 8.4.16 включительно",
        { version := "от 8.4.0 до 8.4.16 включительно", vulnerabilities := [vuln1] })] }
    [8, 4, 5] (by decide) (by decide) (by decide)

/-! ## C4: one label can never suppress another label's match -/

/-- C4: during the range scan, each stored label's contribution reaches
the caller whatever the other labels of the same software contain: the
scan is total (no embedded operation raises), so a malformed sibling
label neither aborts the scan nor swallows this label's bucket. -/
theorem label_match_never_suppressed (t : VulnerabilityTree)
    (software_name version : String) (sw : Software) (target_parts : List Nat)
    (p : String × SoftwareVersion) (v : Vulnerability)
    (hsw : dictGet software_name t.root = some sw)
    (hv : dictGet version sw.versions = none)
    (hp : parseVersion version = some target_parts)
    (hmem : p ∈ sw.versions)
    (hvp : v ∈ labelContribution target_parts version p) :
    v ∈ t.find_vulnerabilities software_name (some version) := by
  rw [find_ranges_eq t software_name version sw target_parts hsw hv hp]
  exact mem_flatMapL hmem hvp

/-- C4 witness: in a tree whose first label "до-1.0" passes the range
heuristic but fails every range pattern, the well-formed sibling
"от 8.0 до 9.0" still delivers its bucket for the query "8.5". -/
theorem label_match_never_suppressed_witness :
    vuln1 ∈ tMalformed.find_vulnerabilities "PostgreSQL" (some "8.5") :=
  label_match_never_suppressed tMalformed "PostgreSQL" "8.5"
    { name := "PostgreSQL",
      versions := [("до-1.0", { version := "до-1.0", vulnerabilities := [vuln2] }),
                   ("от 8.0 до 9.0", { version := "от 8.0 до 9.0",
                                       vulnerabilities := [vuln1] })] }
    [8, 5]
    ("от 8.0 до 9.0", { version := "от 8.0 до 9.0", vulnerabilities := [vuln1] })
    vuln1 (by decide) (by decide) (by decide) (by decide) (by decide)

/-! ## C5: overlapping ranges concatenate without deduplication -/

/-- C5: when the query falls inside both stored ranges of a
two-label software and matches neither label exactly, `find` returns
the concatenation of the two buckets, whose length is the sum of the
buckets' lengths (no cross-bucket deduplication). -/
theorem overlapping_ranges_concatenate (t : VulnerabilityTree)
    (software_name version l₁ l₂ : String) (sv₁ sv₂ : SoftwareVersion)
    (sw : Software) (target_parts : List Nat)
    (hsw : dictGet software_name t.root = some sw)
    (hvers : sw.versions = [(l₁, sv₁), (l₂, sv₂)])
    (hv : dictGet version sw.versions = none)
    (hp : parseVersion version = some target_parts)
    (h₁ : rangeAccepts target_parts l₁ = true)
    (h₂ : rangeAccepts target_parts l₂ = true) :
    t.find_vulnerabilities software_name (some version) =
      sv₁.vulnerabilities ++ sv₂.vulnerabilities ∧
    (t.find_vulnerabilities software_name (some version)).length =
      sv₁.vulnerabilities.length + sv₂.vulnerabilities.length := by
  have heq : t.find_vulnerabilities software_name (some version) =
      sv₁.vulnerabilities ++ sv₂.vulnerabilities := by
    rw [find_ranges_eq t software_name version sw target_parts hsw hv hp, hvers]
    simp [flatMapL, labelContribution_eq, collectsLabel, h₁, h₂]
  exact ⟨heq, by rw [heq, List.length_append]⟩

/-- C5 witness: "8.4.5" lies in both "от 8.0 до 9.0" and
"от 8.4.0 до 8.4.16"; the same record stored in both buckets is
reported twice (length 2 = 1 + 1). -/
theorem overlapping_ranges_concatenate_witness :
    tTwoRanges.find_vulnerabilities "Apache" (some "8.4.5") = [vuln1, vuln1] ∧
    (tTwoRanges.find_vulnerabilities "Apache" (some "8.4.5")).length = 2 :=
  overlapping_ranges_concatenate tTwoRanges "Apache" "8.4.5"
    "от 8.0 до 9.0" "от 8.4.0 до 8.4.16"
    { version := "от 8.0 до 9.0", vulnerabilities := [vuln1] }
    { version := "от 8.4.0 до 8.4.16", vulnerabilities := [vuln1] }
    { name := "Apache",
      versions := [("от 8.0 до 9.0", { version := "от 8.0 до 9.0",
                                       vulnerabilities := [vuln1] }),
                   ("от 8.4.0 до 8.4.16", { version := "от 8.4.0 до 8.4.16",
                                            vulnerabilities := [vuln1] })] }
    [8, 4, 5] (by decide) (by decide) (by decide) (by decide) (by decide) (by decide)

/-! ## C3: insertion idempotence (amended: by whole-record equality,
not by `bdu_id` alone) -/

/-- After an insert, the software entry holds the result of
`addVulnToVersion` applied to the previous entry (or to a freshly
created one). -/
theorem root_after_insert (t : VulnerabilityTree) (name vstr : String) (v : Vulnerability)
    (vendor software_type : String) :
    dictGet name (t.add_vulnerability name vstr v vendor software_type).root =
      some ((match dictGet name t.root with
             | some sw => sw
             | none => { name := name, vendor := vendor,
                         software_type := software_type }).addVulnToVersion vstr v) := by
  cases h1 : dictGet name t.root with
  | none =>
    show dictGet name
        (updateFirst name _ (t.add_software name vendor software_type).root) = _
    have hr : (t.add_software name vendor software_type).root =
        t.root ++ [(name, { name := name, vendor := vendor,
                            software_type := software_type })] := by
      simp [VulnerabilityTree.add_software, h1]
    rw [hr, updateFirst_append_of_none _ _ h1, dictGet_append_self _ h1]
  | some sw =>
    show dictGet name
        (updateFirst name _ (t.add_software name vendor software_type).root) = _
    rw [add_software_existing_noop t name vendor software_type sw h1,
      dictGet_updateFirst_self, h1]
    rfl

/-- After `addVulnToVersion`, the version bucket holds the result of
`SoftwareVersion.add_vulnerability` applied to the previous bucket (or
to a freshly created empty one). -/
theorem versions_addVulnToVersion (sw : Software) (vstr : String) (v : Vulnerability) :
    dictGet vstr (sw.addVulnToVersion vstr v).versions =
      some ((match dictGet vstr sw.versions with
             | some sv => sv
             | none => { version := vstr }).add_vulnerability v) := by
  cases h2 : dictGet vstr sw.versions with
  | none =>
    show dictGet vstr (updateFirst vstr _ (sw.add_version vstr).versions) = _
    have hr : (sw.add_version vstr).versions =
        sw.versions ++ [(vstr, { version := vstr })] := by
      simp [Software.add_version, h2]
    rw [hr, updateFirst_append_of_none _ _ h2, dictGet_append_self _ h2]
  | some sv =>
    show dictGet vstr (updateFirst vstr _ (sw.add_version vstr).versions) = _
    have hr : sw.add_version vstr = sw := by simp [Software.add_version, h2]
    rw [hr, dictGet_updateFirst_self, h2]
    rfl

/-- The bucket produced by `SoftwareVersion.add_vulnerability`. -/
theorem bucket_add_vuln (sv : SoftwareVersion) (v : Vulnerability) :
    (sv.add_vulnerability v).vulnerabilities =
      if v ∈ sv.vulnerabilities then sv.vulnerabilities
      else sv.vulnerabilities ++ [v] := by
  simp only [SoftwareVersion.add_vulnerability]
  split <;> rfl

/-- The stored bucket after an insert: unchanged when the very record
is already present, extended by the record at the end otherwise. -/
theorem bucketOf_after_insert (t : VulnerabilityTree) (name vstr : String)
    (v : Vulnerability) (vendor software_type : String) :
    bucketOf (t.add_vulnerability name vstr v vendor software_type) name vstr =
      if v ∈ bucketOf t name vstr then bucketOf t name vstr
      else bucketOf t name vstr ++ [v] := by
  unfold bucketOf
  rw [root_after_insert]
  cases h1 : dictGet name t.root with
  | none =>
    simp only [versions_addVulnToVersion]
    simp [dictGet, bucket_add_vuln]
  | some sw =>
    simp only [versions_addVulnToVersion]
    cases h2 : dictGet vstr sw.versions with
    | none => simp [h2, bucket_add_vuln]
    | some sv => simp [h2, bucket_add_vuln]

/-- After an insert the exact label exists, so `find_vulnerabilities`
on it returns the stored bucket. -/
theorem find_after_insert (t : VulnerabilityTree) (name vstr : String)
    (v : Vulnerability) (vendor software_type : String) :
    (t.add_vulnerability name vstr v vendor software_type).find_vulnerabilities
        name (some vstr) =
      bucketOf (t.add_vulnerability name vstr v vendor software_type) name vstr := by
  have hroot := root_after_insert t name vstr v vendor software_type
  have hver := versions_addVulnToVersion
    (match dictGet name t.root with
     | some sw => sw
     | none => { name := name, vendor := vendor, software_type := software_type })
    vstr v
  simp [VulnerabilityTree.find_vulnerabilities, bucketOf, hroot, hver]

/-- Repeating the same insert commutes with `insertN`. -/
theorem insertN_comm (name vstr : String) (v : Vulnerability)
    (vendor software_type : String) : ∀ (m : Nat) (u : VulnerabilityTree),
    insertN name vstr v vendor software_type m
        (u.add_vulnerability name vstr v vendor software_type) =
      (insertN name vstr v vendor software_type m u).add_vulnerability
        name vstr v vendor software_type := by
  intro m
  induction m with
  | zero => intro u; rfl
  | succ k ih => intro u
                 exact ih (u.add_vulnerability name vstr v vendor software_type)

/-- C3 counterexample to identity-by-`bdu_id`: two records sharing a
`bdu_id` but differing in `name` are both kept in the same bucket, so
inserting a record whose `bdu_id` is already present does change the
bucket. -/
theorem same_bdu_id_inserted_twice_counterexample :
    vuln1.bdu_id = vuln2.bdu_id ∧
    vuln1 ≠ vuln2 ∧
    ((VulnerabilityTree.add_vulnerability {} "X" "1.0" vuln1 "" "").add_vulnerability
        "X" "1.0" vuln2 "" "").find_vulnerabilities "X" (some "1.0") =
      [vuln1, vuln2] := by
  refine ⟨?_, ?_, ?_⟩ <;> decide

/-- C3 amended: insertion is idempotent by whole-record (dataclass)
equality: if the record (all fields equal) is absent, then after any
positive number of inserts of that same record, `find` on the exact
label returns a list containing it exactly once. -/
theorem insert_same_record_exactly_once (t : VulnerabilityTree) (name vstr : String)
    (v : Vulnerability) (vendor software_type : String) (n : Nat)
    (h0 : countV v (bucketOf t name vstr) = 0) (hn : 1 ≤ n) :
    countV v ((insertN name vstr v vendor software_type n t).find_vulnerabilities
      name (some vstr)) = 1 := by
  obtain ⟨m, rfl⟩ : ∃ m, n = m + 1 := ⟨n - 1, by omega⟩
  have first : countV v
      (bucketOf (t.add_vulnerability name vstr v vendor software_type) name vstr) = 1 := by
    rw [bucketOf_after_insert, if_neg ((countV_eq_zero_iff _ _).mp h0), countV_append, h0]
    simp [countV]
  have step : ∀ u : VulnerabilityTree, countV v (bucketOf u name vstr) = 1 →
      countV v (bucketOf (u.add_vulnerability name vstr v vendor software_type)
        name vstr) = 1 := by
    intro u hu
    have hmem : v ∈ bucketOf u name vstr := by
      by_contra hx
      rw [(countV_eq_zero_iff v (bucketOf u name vstr)).mpr hx] at hu
      exact absurd hu (by omega)
    rw [bucketOf_after_insert, if_pos hmem]
    exact hu
  have iter : ∀ (k : Nat) (u : VulnerabilityTree), countV v (bucketOf u name vstr) = 1 →
      countV v (bucketOf (insertN name vstr v vendor software_type k u) name vstr) = 1 := by
    intro k
    induction k with
    | zero => intro u hu; exact hu
    | succ j ih => intro u hu
                   exact ih (u.add_vulnerability name vstr v vendor software_type) (step u hu)
  have hcount := iter m (t.add_vulnerability name vstr v vendor software_type) first
  rw [insertN_comm] at hcount
  show countV v ((insertN name vstr v vendor software_type m
      (t.add_vulnerability name vstr v vendor software_type)).find_vulnerabilities
      name (some vstr)) = 1
  rw [insertN_comm, find_after_insert]
  exact hcount

/-- C3 witness: three identical inserts into the empty tree leave
exactly one copy in the exact-label lookup. -/
theorem insert_same_record_exactly_once_witness :
    countV vuln1 (bucketOf {} "X" "1.0") = 0 ∧ 1 ≤ 3 ∧
    countV vuln1 ((insertN "X" "1.0" vuln1 "" "" 3 {}).find_vulnerabilities
      "X" (some "1.0")) = 1 :=
  ⟨by decide, by decide,
    insert_same_record_exactly_once {} "X" "1.0" vuln1 "" "" 3 (by decide) (by decide)⟩

end CVEFinder
